import Mathlib

/-!
Verification development for the map-coordinates real-time presence and
voice-streaming demo.  The definitions below are shallow embeddings of the
TypeScript sources: the binary audio packet codec (`packets.ts`), the adaptive
jitter-buffered playback engine (`audio/playback.ts`), the presence directory
(`players.ts`), the zone gate (`zones.ts`) and the per-peer channel
subscription lifecycle (`main.ts`).

Modelling conventions:
* JavaScript numbers that carry clock times, durations, gains and coordinates
  are modelled as rationals (`ℚ`); the claims under study concern threshold
  comparisons and exact copies, not float rounding.
* 32-bit PCM samples are modelled by their 32-bit IEEE-754 bit patterns
  (naturals below `2 ^ 32`); the codec only ever copies sample bit patterns,
  it never computes with them.
* Fallible JavaScript results are explicit: `undefined` returns become a
  dedicated constructor, and a thrown `RangeError` (ECMA-262 22.2.5.1:
  constructing a typed array at a byte offset that is not a multiple of the
  element size throws) becomes another.
-/

/-- A sample value: the 32-bit bit pattern stored in a `Float32Array` slot. -/
abbrev Sample := ℕ

/-- Models a JavaScript `Uint8Array` view: an underlying `ArrayBuffer`
(`buf`, a byte list), the view's `byteOffset` and its `byteLength`. -/
structure ByteView where
  buf : List ℕ
  off : ℕ
  len : ℕ
deriving DecidableEq

/-- Byte `i` of the view (`payload[i]`, i.e. `buf[off + i]`; 0 past the end,
which a well-formed `Uint8Array` never reads). -/
def byteAt (p : ByteView) (i : ℕ) : ℕ := p.buf.getD (p.off + i) 0

/-- Little-endian 32-bit read at view index `i`
(`DataView.getUint32(i, true)`). -/
def u32At (p : ByteView) (i : ℕ) : ℕ :=
  byteAt p i + 256 * byteAt p (i + 1) + 256 ^ 2 * byteAt p (i + 2) +
    256 ^ 3 * byteAt p (i + 3)

/-- packets.ts: `const VERSION = 1`. -/
def VERSION : ℕ := 1

/-- packets.ts: `const HEADER_BYTES = 1 + 1 + 4 + 4`. -/
def HEADER_BYTES : ℕ := 1 + 1 + 4 + 4

/-- packets.ts `DecodedPacket`: per-channel sample blocks (bit patterns),
sample rate and per-channel frame count. -/
structure DecodedPacket where
  channels : List (List Sample)
  sampleRate : ℕ
  frameCount : ℕ
deriving DecidableEq

/-- Result of `decodePacket`: a decoded packet, `undefined`, or a thrown
`RangeError` (from the `Float32Array` constructor). -/
inductive DecodeResult
  | ok (packet : DecodedPacket)
  | undef
  | rangeError
deriving DecidableEq

/-- Result of `encodePacket`: the encoded bytes plus frame count,
`undefined`, or a thrown `RangeError`. -/
inductive EncodeResult
  | ok (buffer : List ℕ) (frameCount : ℕ)
  | undef
  | rangeError
deriving DecidableEq

/-- Little-endian bytes of a 32-bit write (`DataView.setUint32(_, n, true)`
stores `n` modulo `2 ^ 32`). -/
def u32LEBytes (n : ℕ) : List ℕ :=
  [n % 256, n / 256 % 256, n / 256 ^ 2 % 256, n / 256 ^ 3 % 256]

/-- Models the ECMAScript check performed by
`new Float32Array(buffer, byteOffset, length)`: the construction succeeds
only when `byteOffset` is a multiple of `BYTES_PER_ELEMENT` (4); otherwise a
`RangeError` is thrown (ECMA-262 22.2.5.1, AllocateTypedArrayBuffer). -/
def float32AlignOk (byteOffset : ℕ) : Bool := byteOffset % 4 == 0

/-- packets.ts `encodePacket(channels, sampleRate)`.  Mirrors the source:
an empty channel list returns `undefined`; the header is written through a
`DataView`; then `new Float32Array(arrayBuffer, HEADER_BYTES, frameCount *
channelCount)` is constructed (which throws a `RangeError` whenever
`HEADER_BYTES` is not a multiple of 4); then each channel is length-checked
(`undefined` on mismatch) and copied channel-major into the sample area. -/
def encodePacket (channels : List (List Sample)) (sampleRate : ℕ) :
    EncodeResult :=
  if channels.length = 0 then .undef
  else
    let frameCount := (channels.headD []).length
    let channelCount := channels.length
    let header :=
      [VERSION % 256, channelCount % 256] ++ u32LEBytes sampleRate ++
        u32LEBytes frameCount
    if ¬ float32AlignOk HEADER_BYTES then .rangeError
    else if channels.any (fun source => source.length ≠ frameCount) then .undef
    else
      .ok (header ++ channels.flatMap (fun source => source.flatMap u32LEBytes))
        frameCount

/-- The sample word at index `j` of the decoder's `Float32Array` view
(`data[j]`, four little-endian bytes starting at `HEADER_BYTES + 4 * j`). -/
def wordAt (p : ByteView) (j : ℕ) : ℕ := u32At p (HEADER_BYTES + 4 * j)

/-- packets.ts `decodePacket(payload)`.  Mirrors the source checks in order:
`byteLength < HEADER_BYTES` and version mismatches return `undefined`; a
total length different from `HEADER_BYTES + channelCount * frameCount * 4`
returns `undefined`; then `new Float32Array(payload.buffer,
payload.byteOffset + HEADER_BYTES, channelCount * frameCount)` is
constructed, which throws a `RangeError` whenever
`payload.byteOffset + HEADER_BYTES` is not a multiple of 4 (the source has
no aligned-copy guard); on success each channel is `slice`d out. -/
def decodePacket (p : ByteView) : DecodeResult :=
  if p.len < HEADER_BYTES then .undef
  else if byteAt p 0 ≠ VERSION then .undef
  else
    let channelCount := byteAt p 1
    let sampleRate := u32At p 2
    let frameCount := u32At p 6
    if p.len ≠ HEADER_BYTES + channelCount * frameCount * 4 then .undef
    else if ¬ float32AlignOk (p.off + HEADER_BYTES) then .rangeError
    else
      .ok
        { channels :=
            (List.range channelCount).map fun channel =>
              (List.range frameCount).map fun i =>
                wordAt p (channel * frameCount + i)
          sampleRate := sampleRate
          frameCount := frameCount }

/-- zones.ts rectangle bounds (`Zone["rect"]`). -/
structure Rect where
  x : ℚ
  y : ℚ
  width : ℚ
  height : ℚ
deriving DecidableEq

/-- zones.ts `Zone`: identifier, display name, rectangle bounds. -/
structure Zone where
  id : String
  name : String
  rect : Rect
deriving DecidableEq

/-- zones.ts `ZONES`: the static zone configuration. -/
def ZONES : List Zone :=
  [{ id := "forge", name := "Forge",
     rect := { x := 32, y := 48, width := 256, height := 256 } },
   { id := "library", name := "Library",
     rect := { x := 352, y := 48, width := 256, height := 256 } }]

/-- zones.ts `contains(rect, x, y)`: inclusive rectangle membership. -/
def contains (rect : Rect) (x y : ℚ) : Bool :=
  decide (rect.x ≤ x) && decide (x ≤ rect.x + rect.width) &&
    decide (rect.y ≤ y) && decide (y ≤ rect.y + rect.height)

/-- zones.ts `zonesForPoint(x, y)`: ids of the zones whose rectangle
contains the point. -/
def zonesForPoint (x y : ℚ) : List String :=
  (ZONES.filter fun zone => contains zone.rect x y).map fun zone => zone.id

/-- types.ts `Player` (with the `zones` and `speakingLevel` fields that
main.ts manages on it).  Times (`lastSeen`) come from `performance.now()`. -/
structure Player where
  key : String
  npub : Option String := none
  x : ℚ
  y : ℚ
  color : String
  lastSeen : ℚ
  isLocal : Bool
  zones : Option (List String) := none
  speakingLevel : Option ℚ := none
deriving DecidableEq

/-- players.ts `pruneStale(players, remoteSubscriptions, now, staleTimeout)`.
The map is modelled in iteration (insertion) order as an association list;
`subs` is the key set of `remoteSubscriptions`.  Result: the retained
entries, paired with the keys whose teardown callback
(`remoteSubscriptions.get(key)?.()`) was invoked, in invocation order.
The callback itself only touches state outside the player map (its own
`players.delete` of the same key is a no-op since prune deleted it first). -/
def pruneStale (players : List (String × Player)) (subs : List String)
    (now staleTimeout : ℚ) : List (String × Player) × List String :=
  match players with
  | [] => ([], [])
  | (key, player) :: rest =>
    let tail := pruneStale rest subs now staleTimeout
    if player.isLocal then ((key, player) :: tail.1, tail.2)
    else if staleTimeout < now - player.lastSeen then
      (tail.1, (if key ∈ subs then [key] else []) ++ tail.2)
    else ((key, player) :: tail.1, tail.2)

/-- main.ts `intersects(a, b)`: empty guard, then
`a.some((value) => b.includes(value))`. -/
def intersects (a b : List String) : Bool :=
  if a.isEmpty || b.isEmpty then false
  else a.any fun value => b.contains value

/-- audio/playback.ts: `const MIN_LEAD_SECONDS = 0.15`. -/
def MIN_LEAD_SECONDS : ℚ := 0.15

/-- audio/playback.ts: `const MAX_LEAD_SECONDS = 0.75`. -/
def MAX_LEAD_SECONDS : ℚ := 0.75

/-- audio/playback.ts: `const LEAD_STEP_UP = 0.08`. -/
def LEAD_STEP_UP : ℚ := 0.08

/-- audio/playback.ts: `const LEAD_STEP_DOWN = 0.02`. -/
def LEAD_STEP_DOWN : ℚ := 0.02

/-- audio/playback.ts: `const STABLE_SECONDS = 8`. -/
def STABLE_SECONDS : ℚ := 8

/-- audio/playback.ts: `const SHRINK_COOLDOWN_SECONDS = 4`. -/
def SHRINK_COOLDOWN_SECONDS : ℚ := 4

/-- audio/playback.ts `PlaybackStats`. -/
structure PlaybackStats where
  framesDecoded : ℕ
  bufferedAhead : ℚ
  underruns : ℕ
  targetLead : ℚ
deriving DecidableEq

/-- audio/playback.ts `RemoteState`.  The Web Audio `GainNode` is modelled
by its gain value; `lastUnderrunAt = -Infinity` (the initial value) is
modelled by `none`. -/
structure RemoteState where
  gainValue : ℚ
  nextTime : ℚ
  stats : PlaybackStats
  targetLead : ℚ
  lastUnderrunAt : Option ℚ
  lastAdjustmentAt : ℚ
deriving DecidableEq

/-- The guard `now - remote.lastUnderrunAt > STABLE_SECONDS`; with the
initial `lastUnderrunAt = -Infinity` (modelled `none`) it is true. -/
def stableSince : Option ℚ → ℚ → Bool
  | none, _ => true
  | some t, now => decide (STABLE_SECONDS < now - t)

/-- audio/playback.ts `#createRemote` (state part): fresh gain of 1 and a
fresh remote scheduling state at clock time `now`. -/
def createRemote (now : ℚ) : RemoteState :=
  { gainValue := 1
    nextTime := now + MIN_LEAD_SECONDS
    stats :=
      { framesDecoded := 0, bufferedAhead := 0, underruns := 0,
        targetLead := MIN_LEAD_SECONDS }
    targetLead := MIN_LEAD_SECONDS
    lastUnderrunAt := none
    lastAdjustmentAt := now }

/-- The `if (remote.nextTime < now)` underrun branch of `enqueue`:
count the underrun, grow the target lead by `LEAD_STEP_UP` bounded by
`MAX_LEAD_SECONDS`, stamp the adjustment, reset the cursor to
`now + targetLead`. -/
def underrunPhase (s : RemoteState) (now : ℚ) : RemoteState :=
  if s.nextTime < now then
    let lead := min MAX_LEAD_SECONDS (s.targetLead + LEAD_STEP_UP)
    { s with
      stats := { s.stats with underruns := s.stats.underruns + 1 }
      lastUnderrunAt := some now
      targetLead := lead
      lastAdjustmentAt := now
      nextTime := now + lead }
  else s

/-- The scheduling part of `enqueue`: start the packet at
`max(nextTime, now + targetLead)`, advance the cursor by the buffer's
duration (`frameCount / sampleRate`), and refresh the stats.  The audio
graph calls (`createBuffer`, `copyToChannel`, `createBufferSource`,
`source.start`) affect only the output device, which is outside this state;
the buffer enters the model through its duration.  Both reads of
`context.currentTime` during one call are modelled by the same `now`. -/
def schedulePhase (s : RemoteState) (now : ℚ) (pkt : DecodedPacket) :
    RemoteState :=
  let startAt := max s.nextTime (now + s.targetLead)
  let nextTime := startAt + (pkt.frameCount : ℚ) / (pkt.sampleRate : ℚ)
  { s with
    nextTime := nextTime
    stats :=
      { s.stats with
        framesDecoded := s.stats.framesDecoded + pkt.frameCount
        bufferedAhead := max 0 (nextTime - now)
        targetLead := s.targetLead } }

/-- The trailing shrink branch of `enqueue`: when the lead is above the
minimum, at least one underrun was ever counted, the stability window and
the cooldown have both elapsed, and the buffered-ahead duration exceeds the
target lead by more than 0.05 s, shrink the lead by `LEAD_STEP_DOWN`
bounded below by `MIN_LEAD_SECONDS`, stamp the adjustment, and raise the
cursor to `now + targetLead` if it fell below it. -/
def shrinkPhase (s : RemoteState) (now : ℚ) : RemoteState :=
  if MIN_LEAD_SECONDS < s.targetLead ∧ 0 < s.stats.underruns ∧
      stableSince s.lastUnderrunAt now = true ∧
      SHRINK_COOLDOWN_SECONDS < now - s.lastAdjustmentAt ∧
      s.targetLead + 0.05 < s.stats.bufferedAhead then
    let lead := max MIN_LEAD_SECONDS (s.targetLead - LEAD_STEP_DOWN)
    let s1 :=
      { s with
        targetLead := lead
        lastAdjustmentAt := now
        stats := { s.stats with targetLead := lead } }
    if s1.nextTime < now + lead then { s1 with nextTime := now + lead } else s1
  else s

/-- audio/playback.ts `enqueue` body for one remote state (the code after
the remote has been fetched or created), at clock time `now`. -/
def enqueueStep (s : RemoteState) (now : ℚ) (pkt : DecodedPacket) :
    RemoteState :=
  shrinkPhase (schedulePhase (underrunPhase s now) now pkt) now

/-- audio/playback.ts `AudioPlayback`: the optional `AudioContext` is
modelled by the flag `hasContext` (`resume()` creates it); `#remotes` is a
`Map` in insertion order. -/
structure AudioPlayback where
  hasContext : Bool
  remotes : List (String × RemoteState)
deriving DecidableEq

/-- A freshly constructed `AudioPlayback` (`new AudioPlayback()`): no
context, no remotes. -/
def AudioPlayback.init : AudioPlayback := { hasContext := false, remotes := [] }

/-- audio/playback.ts `resume()` (state part): ensures the context exists. -/
def AudioPlayback.resume (p : AudioPlayback) : AudioPlayback :=
  { p with hasContext := true }

/-- `Map.get` over the modelled remotes. -/
def lookupRemote (path : String) :
    List (String × RemoteState) → Option RemoteState
  | [] => none
  | (key, r) :: rest =>
    if key = path then some r else lookupRemote path rest

/-- In-place update of an existing key (a JS `Map` keeps the entry's
position when its value object is mutated or re-set). -/
def replaceRemote (path : String) (r : RemoteState) :
    List (String × RemoteState) → List (String × RemoteState)
  | [] => []
  | (key, v) :: rest =>
    if key = path then (key, r) :: rest
    else (key, v) :: replaceRemote path r rest

/-- audio/playback.ts `enqueue(path, packet)`: returns immediately when no
context exists; otherwise fetches the remote (creating and inserting a
fresh one for an unknown path, as `#createRemote` does) and applies the
enqueue body at clock time `now`. -/
def AudioPlayback.enqueue (p : AudioPlayback) (path : String)
    (pkt : DecodedPacket) (now : ℚ) : AudioPlayback :=
  if p.hasContext then
    match lookupRemote path p.remotes with
    | some r =>
      { p with remotes := replaceRemote path (enqueueStep r now pkt) p.remotes }
    | none =>
      { p with
        remotes := p.remotes ++ [(path, enqueueStep (createRemote now) now pkt)] }
  else p

/-- audio/playback.ts `setVolume(path, value)`: a no-op for an unknown
path, otherwise sets the gain value. -/
def AudioPlayback.setVolume (p : AudioPlayback) (path : String) (value : ℚ) :
    AudioPlayback :=
  match lookupRemote path p.remotes with
  | none => p
  | some r =>
    { p with remotes := replaceRemote path { r with gainValue := value } p.remotes }

/-- audio/playback.ts `getVolume(path)`. -/
def AudioPlayback.getVolume (p : AudioPlayback) (path : String) : Option ℚ :=
  (lookupRemote path p.remotes).map fun r => r.gainValue

/-- audio/playback.ts `getStats(path)`: a copy of the remote's stats. -/
def AudioPlayback.getStats (p : AudioPlayback) (path : String) :
    Option PlaybackStats :=
  (lookupRemote path p.remotes).map fun r => r.stats

/-- The loop body of main.ts `updateAudioMix()`: skip the local player,
otherwise set the peer's gain to 1 when its zone set intersects the local
player's and to 0 otherwise (`?? []` supplies the empty set for absent zone
fields). -/
def mixStep (localPlayer : Player) (pb : AudioPlayback)
    (entry : String × Player) : AudioPlayback :=
  if entry.2.isLocal then pb
  else
    pb.setVolume entry.1
      (if intersects (localPlayer.zones.getD []) (entry.2.zones.getD [])
        then 1 else 0)

/-- main.ts `updateAudioMix()`: the loop body applied over every player of
the map in iteration order. -/
def updateAudioMix (localPlayer : Player) (players : List (String × Player))
    (pb : AudioPlayback) : AudioPlayback :=
  players.foldl (mixStep localPlayer) pb

/-- States of a peer's jitter scheduling reachable by `enqueue` calls:
the fresh state made by `#createRemote`, followed by any sequence of
enqueue bodies at arbitrary clock times and packets. -/
inductive Reachable : RemoteState → Prop
  | init (now : ℚ) : Reachable (createRemote now)
  | step (s : RemoteState) (now : ℚ) (pkt : DecodedPacket) :
      Reachable s → Reachable (enqueueStep s now pkt)

/-- The five logical channels a `subscribeTo(path)` call may open. -/
inductive Chan
  | position
  | profile
  | audio
  | speaking
  | zones
deriving DecidableEq

/-- Which channels `subscribeTo` actually opened: the position track always
opens (a failure there aborts the whole subscription before any state
exists); the other four are best-effort (`profileTrack` is defined iff
`broadcast.subscribe` succeeded, and so on). -/
structure SubSetup where
  profile : Bool
  audio : Bool
  speaking : Bool
  zones : Bool
deriving DecidableEq

/-- main.ts `subscribeTo` closure state: the five `…Active` flags, the
`closed` flag guarding `finish`, plus a count of how many times the body of
`finish` actually ran.  The body's effects (deleting the
`remoteSubscriptions` entry, closing the five tracks, `audioPlayback.close`,
deleting the player, `updateAudioMix`) live outside this record and happen
exactly when `finishRuns` increments. -/
structure SubState where
  positionActive : Bool
  profileActive : Bool
  audioActive : Bool
  speakingActive : Bool
  zonesActive : Bool
  closed : Bool
  finishRuns : ℕ
deriving DecidableEq

/-- The flag initialisation in `subscribeTo`: `positionActive = true`,
`profileActive = !!profileTrack`, etc., `closed = false`. -/
def initSub (c : SubSetup) : SubState :=
  { positionActive := true
    profileActive := c.profile
    audioActive := c.audio
    speakingActive := c.speaking
    zonesActive := c.zones
    closed := false
    finishRuns := 0 }

/-- Whether `subscribeTo` opened channel `ch` under setup `c`. -/
def openedIn (c : SubSetup) : Chan → Bool
  | .position => true
  | .profile => c.profile
  | .audio => c.audio
  | .speaking => c.speaking
  | .zones => c.zones

/-- The liveness flag of channel `ch`. -/
def activeFlag : Chan → SubState → Bool
  | .position, s => s.positionActive
  | .profile, s => s.profileActive
  | .audio, s => s.audioActive
  | .speaking, s => s.speakingActive
  | .zones, s => s.zonesActive

/-- The `…Active = false` assignment a channel's `.finally` handler makes. -/
def setInactive (ch : Chan) (s : SubState) : SubState :=
  match ch with
  | .position => { s with positionActive := false }
  | .profile => { s with profileActive := false }
  | .audio => { s with audioActive := false }
  | .speaking => { s with speakingActive := false }
  | .zones => { s with zonesActive := false }

/-- main.ts `finish`: a no-op once `closed` is set, otherwise sets `closed`
and runs the teardown body once. -/
def finish (s : SubState) : SubState :=
  if s.closed then s
  else { s with closed := true, finishRuns := s.finishRuns + 1 }

/-- The fan-in condition of `maybeFinish`: no channel is still active. -/
def allInactive (s : SubState) : Bool :=
  !s.positionActive && !s.profileActive && !s.audioActive &&
    !s.speakingActive && !s.zonesActive

/-- main.ts `maybeFinish`: call `finish` once every flag is down. -/
def maybeFinish (s : SubState) : SubState :=
  if allInactive s then finish s else s

/-- Events acting on a subscription: a channel's read loop terminating (its
`.finally` handler: clear the flag, then `maybeFinish`), or a direct
`finish` invocation (`unsubscribeFrom` on directory withdrawal, or the
staleness-prune teardown callback). -/
inductive SubEvent
  | chanInactive (ch : Chan)
  | finishCall
deriving DecidableEq

/-- One event applied to the subscription state. -/
def stepEvent (s : SubState) : SubEvent → SubState
  | .chanInactive ch => maybeFinish (setInactive ch s)
  | .finishCall => finish s

/-- A sequence of events applied in order. -/
def runEvents (s : SubState) (events : List SubEvent) : SubState :=
  events.foldl stepEvent s

/-- C1.  The spec (and the repository's own alignment post-mortem) requires
`decodePacket` to copy a misaligned payload into a fresh aligned buffer and
to succeed identically at every base byte offset.  The source has no such
guard: a well-formed 14-byte packet (version 1, one channel, one frame,
rate 48000, sample bit pattern 7) throws a `RangeError` when its view
starts at byte offset 0 (sample area at offset 10, not a multiple of 4),
while the same bytes viewed at offset 2 decode successfully — the result
depends on the base offset and the decoder throws. -/
theorem decodePacket_alignment_dependent :
    decodePacket ⟨[1, 1, 128, 187, 0, 0, 1, 0, 0, 0, 7, 0, 0, 0], 0, 14⟩ =
      .rangeError ∧
    decodePacket ⟨[0, 0, 1, 1, 128, 187, 0, 0, 1, 0, 0, 0, 7, 0, 0, 0], 2, 14⟩ =
      .ok ⟨[[7]], 48000, 1⟩ := by
  constructor <;> decide

/-- C2.  The claimed round-trip law cannot hold on the source: `encodePacket`
itself constructs `new Float32Array(arrayBuffer, HEADER_BYTES, …)` with
`HEADER_BYTES = 10`, which is not a multiple of 4, so every non-empty encode
throws a `RangeError` — here on the one-channel, one-frame input `[[0]]` at
rate 48000 (the input family of the repository's own round-trip unit test). -/
theorem encodePacket_range_error_at_header_offset :
    encodePacket [[0]] 48000 = .rangeError := by decide

/-- C6.  Any input that is shorter than the 10-byte header (in particular
empty), or carries a version byte other than 1, or whose byte length is not
exactly `HEADER_BYTES + channelCount * frameCount * 4` for the channel and
frame counts declared in its own header, makes `decodePacket` return
`undefined` — not a thrown error. -/
theorem decodePacket_rejects_malformed (p : ByteView)
    (h : p.len < HEADER_BYTES ∨ byteAt p 0 ≠ VERSION ∨
      p.len ≠ HEADER_BYTES + byteAt p 1 * u32At p 6 * 4) :
    decodePacket p = .undef := by
  simp only [decodePacket]
  rcases h with h | h | h
  · rw [if_pos h]
  · split_ifs <;> rfl
  · split_ifs <;> rfl

/-- Witness for C6 at three concrete malformed inputs: the empty input, a
truncated 8-byte header, and a 14-byte input whose header declares 2
channels of 1 frame (expected length 18). -/
theorem decodePacket_rejects_malformed_witness :
    ((⟨[], 0, 0⟩ : ByteView).len < HEADER_BYTES ∨
      byteAt ⟨[], 0, 0⟩ 0 ≠ VERSION ∨
      (⟨[], 0, 0⟩ : ByteView).len ≠
        HEADER_BYTES + byteAt ⟨[], 0, 0⟩ 1 * u32At ⟨[], 0, 0⟩ 6 * 4) ∧
    decodePacket ⟨[], 0, 0⟩ = .undef ∧
    decodePacket ⟨[1, 1, 128, 187, 0, 0, 1, 0], 0, 8⟩ = .undef ∧
    decodePacket ⟨[1, 2, 128, 187, 0, 0, 1, 0, 0, 0, 7, 0, 0, 0], 0, 14⟩ =
      .undef :=
  ⟨by decide,
   decodePacket_rejects_malformed ⟨[], 0, 0⟩ (by decide),
   decodePacket_rejects_malformed ⟨[1, 1, 128, 187, 0, 0, 1, 0], 0, 8⟩
     (by decide),
   decodePacket_rejects_malformed
     ⟨[1, 2, 128, 187, 0, 0, 1, 0, 0, 0, 7, 0, 0, 0], 0, 14⟩ (by decide)⟩

/-- C9.  Zone membership is inclusive of the rectangle boundaries: a zone's
id appears in `zonesForPoint x y` exactly when
`rect.x ≤ x ≤ rect.x + width` and `rect.y ≤ y ≤ rect.y + height`.
Concretely, the forge rectangle's corners (32,48) and (288,304) are inside
(edge-inclusive), the points (31,48) and (289,304) one unit outside are in
no zone, and (0,0) is in no zone. -/
theorem zonesForPoint_inclusive_bounds (x y : ℚ) (zone : Zone)
    (hz : zone ∈ ZONES) :
    (zone.id ∈ zonesForPoint x y ↔
      zone.rect.x ≤ x ∧ x ≤ zone.rect.x + zone.rect.width ∧
        zone.rect.y ≤ y ∧ y ≤ zone.rect.y + zone.rect.height) ∧
    zonesForPoint 32 48 = ["forge"] ∧
    zonesForPoint 288 304 = ["forge"] ∧
    zonesForPoint 31 48 = [] ∧
    zonesForPoint 289 304 = [] ∧
    zonesForPoint 0 0 = [] := by
  refine ⟨?_, by norm_num [zonesForPoint, ZONES, contains],
    by norm_num [zonesForPoint, ZONES, contains],
    by norm_num [zonesForPoint, ZONES, contains],
    by norm_num [zonesForPoint, ZONES, contains],
    by norm_num [zonesForPoint, ZONES, contains]⟩
  have hids : ∀ z ∈ ZONES, ∀ z' ∈ ZONES, z.id = z'.id → z = z' := by decide
  constructor
  · intro hmem
    rcases List.mem_map.mp hmem with ⟨z, hzf, hid⟩
    rcases List.mem_filter.mp hzf with ⟨hzZ, hcont⟩
    have hzz : z = zone := hids z hzZ zone hz hid
    subst hzz
    simpa [contains, and_assoc] using hcont
  · intro hcont
    refine List.mem_map.mpr ⟨zone, List.mem_filter.mpr ⟨hz, ?_⟩, rfl⟩
    simpa [contains, and_assoc] using hcont

/-- Witness for C9 at the forge zone and the point (160,160). -/
theorem zonesForPoint_inclusive_bounds_witness :
    ({ id := "forge", name := "Forge",
       rect := { x := 32, y := 48, width := 256, height := 256 } } : Zone) ∈
        ZONES ∧
    (("forge" ∈ zonesForPoint 160 160 ↔
        (32 : ℚ) ≤ 160 ∧ (160 : ℚ) ≤ 32 + 256 ∧
          (48 : ℚ) ≤ 160 ∧ (160 : ℚ) ≤ 48 + 256) ∧
      zonesForPoint 32 48 = ["forge"] ∧
      zonesForPoint 288 304 = ["forge"] ∧
      zonesForPoint 31 48 = [] ∧
      zonesForPoint 289 304 = [] ∧
      zonesForPoint 0 0 = []) :=
  ⟨by decide,
   zonesForPoint_inclusive_bounds 160 160
     { id := "forge", name := "Forge",
       rect := { x := 32, y := 48, width := 256, height := 256 } }
     (by decide)⟩

/-- C10.  Before `resume()` has created the audio context, `enqueue` returns
immediately: the playback state (remotes, stats, everything) is unchanged,
and a peer with no stats entry still has none afterwards. -/
theorem enqueue_before_resume_noop (p : AudioPlayback) (path : String)
    (pkt : DecodedPacket) (now : ℚ) (h : p.hasContext = false) :
    p.enqueue path pkt now = p ∧
    (p.getStats path = none → (p.enqueue path pkt now).getStats path = none) := by
  have hn : p.enqueue path pkt now = p := by
    simp [AudioPlayback.enqueue, h]
  exact ⟨hn, fun h2 => by rw [hn]; exact h2⟩

/-- Witness for C10 on a freshly constructed playback engine. -/
theorem enqueue_before_resume_noop_witness :
    AudioPlayback.init.hasContext = false ∧
    (AudioPlayback.init.enqueue "peer" ⟨[[0]], 48000, 480⟩ 1 =
        AudioPlayback.init ∧
      (AudioPlayback.init.getStats "peer" = none →
        (AudioPlayback.init.enqueue "peer" ⟨[[0]], 48000, 480⟩ 1).getStats
            "peer" = none)) :=
  ⟨rfl, enqueue_before_resume_noop AudioPlayback.init "peer" ⟨[[0]], 48000, 480⟩
    1 rfl⟩

/-- Unfolding of the underrun branch when the scheduled slot has passed. -/
theorem underrunPhase_of_lt (s : RemoteState) (now : ℚ)
    (h : s.nextTime < now) :
    underrunPhase s now =
      { s with
        stats := { s.stats with underruns := s.stats.underruns + 1 }
        lastUnderrunAt := some now
        targetLead := min MAX_LEAD_SECONDS (s.targetLead + LEAD_STEP_UP)
        lastAdjustmentAt := now
        nextTime := now + min MAX_LEAD_SECONDS (s.targetLead + LEAD_STEP_UP) } := by
  simp [underrunPhase, h]

/-- The underrun branch does nothing when the cursor is still ahead. -/
theorem underrunPhase_of_ge (s : RemoteState) (now : ℚ)
    (h : ¬ s.nextTime < now) : underrunPhase s now = s := by
  simp [underrunPhase, h]

/-- Explicit form of the scheduling part of `enqueue`. -/
theorem schedulePhase_eq (s : RemoteState) (now : ℚ) (pkt : DecodedPacket) :
    schedulePhase s now pkt =
      { s with
        nextTime :=
          max s.nextTime (now + s.targetLead) +
            (pkt.frameCount : ℚ) / (pkt.sampleRate : ℚ)
        stats :=
          { s.stats with
            framesDecoded := s.stats.framesDecoded + pkt.frameCount
            bufferedAhead :=
              max 0
                (max s.nextTime (now + s.targetLead) +
                  (pkt.frameCount : ℚ) / (pkt.sampleRate : ℚ) - now)
            targetLead := s.targetLead } } := rfl

/-- Immediately after an underrun the stability window has not elapsed. -/
theorem stableSince_now (now : ℚ) : stableSince (some now) now = false := by
  simp [stableSince, STABLE_SECONDS]

/-- The shrink branch does nothing when its guard fails. -/
theorem shrinkPhase_of_not (s : RemoteState) (now : ℚ)
    (h : ¬(MIN_LEAD_SECONDS < s.targetLead ∧ 0 < s.stats.underruns ∧
      stableSince s.lastUnderrunAt now = true ∧
      SHRINK_COOLDOWN_SECONDS < now - s.lastAdjustmentAt ∧
      s.targetLead + 0.05 < s.stats.bufferedAhead)) :
    shrinkPhase s now = s := by
  simp only [shrinkPhase]
  rw [if_neg h]

/-- C3.  An enqueue call on an existing jitter state whose scheduled slot
has already passed (`nextTime < now`) counts exactly one underrun, grows
the target lead by `LEAD_STEP_UP` bounded by `MAX_LEAD_SECONDS` (so the
lead never decreases in this call), resets the cursor to `now + targetLead`
before scheduling, and schedules the packet right there (the cursor ends at
`now + targetLead + duration`). -/
theorem enqueue_underrun_recovery (s : RemoteState) (now : ℚ)
    (pkt : DecodedPacket) (h1 : s.nextTime < now)
    (h2 : s.targetLead ≤ MAX_LEAD_SECONDS) :
    (enqueueStep s now pkt).stats.underruns = s.stats.underruns + 1 ∧
    (enqueueStep s now pkt).targetLead =
      min MAX_LEAD_SECONDS (s.targetLead + LEAD_STEP_UP) ∧
    s.targetLead ≤ (enqueueStep s now pkt).targetLead ∧
    (enqueueStep s now pkt).targetLead ≤ MAX_LEAD_SECONDS ∧
    (underrunPhase s now).nextTime =
      now + min MAX_LEAD_SECONDS (s.targetLead + LEAD_STEP_UP) ∧
    (enqueueStep s now pkt).nextTime =
      now + min MAX_LEAD_SECONDS (s.targetLead + LEAD_STEP_UP) +
        (pkt.frameCount : ℚ) / (pkt.sampleRate : ℚ) := by
  have hstable := stableSince_now now
  have hshrink :
      enqueueStep s now pkt = schedulePhase (underrunPhase s now) now pkt := by
    unfold enqueueStep
    apply shrinkPhase_of_not
    rintro ⟨-, -, hc, -, -⟩
    rw [show (schedulePhase (underrunPhase s now) now pkt).lastUnderrunAt =
        (underrunPhase s now).lastUnderrunAt from rfl,
      underrunPhase_of_lt s now h1] at hc
    simp only [hstable] at hc
    exact Bool.false_ne_true hc
  have hle : s.targetLead ≤ min MAX_LEAD_SECONDS (s.targetLead + LEAD_STEP_UP) := by
    refine le_min h2 ?_
    have : (0 : ℚ) < LEAD_STEP_UP := by norm_num [LEAD_STEP_UP]
    linarith
  rw [hshrink, underrunPhase_of_lt s now h1, schedulePhase_eq]
  refine ⟨rfl, rfl, hle, min_le_left _ _, rfl, ?_⟩
  simp

/-- Witness for C3: a fresh remote created at time 0 receives its next
packet at time 1 (after its scheduled slot passed). -/
theorem enqueue_underrun_recovery_witness :
    ((createRemote 0).nextTime < 1 ∧
      (createRemote 0).targetLead ≤ MAX_LEAD_SECONDS) ∧
    ((enqueueStep (createRemote 0) 1 ⟨[[0]], 48000, 480⟩).stats.underruns =
        (createRemote 0).stats.underruns + 1 ∧
      (enqueueStep (createRemote 0) 1 ⟨[[0]], 48000, 480⟩).targetLead =
        min MAX_LEAD_SECONDS ((createRemote 0).targetLead + LEAD_STEP_UP) ∧
      (createRemote 0).targetLead ≤
        (enqueueStep (createRemote 0) 1 ⟨[[0]], 48000, 480⟩).targetLead ∧
      (enqueueStep (createRemote 0) 1 ⟨[[0]], 48000, 480⟩).targetLead ≤
        MAX_LEAD_SECONDS ∧
      (underrunPhase (createRemote 0) 1).nextTime =
        1 + min MAX_LEAD_SECONDS ((createRemote 0).targetLead + LEAD_STEP_UP) ∧
      (enqueueStep (createRemote 0) 1 ⟨[[0]], 48000, 480⟩).nextTime =
        1 + min MAX_LEAD_SECONDS ((createRemote 0).targetLead + LEAD_STEP_UP) +
          ((480 : ℕ) : ℚ) / ((48000 : ℕ) : ℚ)) :=
  ⟨⟨by norm_num [createRemote, MIN_LEAD_SECONDS],
    by norm_num [createRemote, MIN_LEAD_SECONDS, MAX_LEAD_SECONDS]⟩,
   enqueue_underrun_recovery (createRemote 0) 1 ⟨[[0]], 48000, 480⟩
     (by norm_num [createRemote, MIN_LEAD_SECONDS])
     (by norm_num [createRemote, MIN_LEAD_SECONDS, MAX_LEAD_SECONDS])⟩


/-- Retained players were in the map before the prune pass. -/
theorem pruneStale_retained_mem (players : List (String × Player))
    (subs : List String) (now staleTimeout : ℚ) :
    ∀ e ∈ (pruneStale players subs now staleTimeout).1, e ∈ players := by
  induction players with
  | nil => simp [pruneStale]
  | cons hd tl ih =>
    rcases hd with ⟨k, pl⟩
    intro e he
    simp only [pruneStale] at he
    split_ifs at he <;>
      first
        | exact List.mem_cons.mpr (Or.inr (ih e he))
        | exact List.mem_cons.mpr ((List.mem_cons.mp he).imp id (ih e))

/-- C7.  A prune pass removes exactly the non-local players whose
last-update age strictly exceeds the timeout, invoking the peer's
subscription-teardown callback for each; a non-local player whose age is at
most the timeout is retained, and a local player is never removed. -/
theorem pruneStale_removes_stale (players : List (String × Player))
    (subs : List String) (now staleTimeout : ℚ) (key : String)
    (player : Player) (hmem : (key, player) ∈ players)
    (hnd : (players.map Prod.fst).Nodup) :
    (player.isLocal = false → staleTimeout < now - player.lastSeen →
      (key, player) ∉ (pruneStale players subs now staleTimeout).1 ∧
        (key ∈ subs → key ∈ (pruneStale players subs now staleTimeout).2)) ∧
    (player.isLocal = false → now - player.lastSeen ≤ staleTimeout →
      (key, player) ∈ (pruneStale players subs now staleTimeout).1) ∧
    (player.isLocal = true →
      (key, player) ∈ (pruneStale players subs now staleTimeout).1) := by
  induction players with
  | nil => simp at hmem
  | cons hd tl ih =>
    rcases hd with ⟨k, pl⟩
    simp only [List.map_cons, List.nodup_cons] at hnd
    obtain ⟨hk, hnd'⟩ := hnd
    rcases List.mem_cons.mp hmem with heq | hmemtl
    · injection heq with hkk hpp
      subst hkk
      subst hpp
      have hnotin : (key, player) ∉ (pruneStale tl subs now staleTimeout).1 := by
        intro hin
        exact hk (List.mem_map.mpr
          ⟨(key, player), pruneStale_retained_mem tl subs now staleTimeout _ hin,
            rfl⟩)
      refine ⟨fun hl hst => ?_, fun hl hle => ?_, fun hl => ?_⟩
      · simp only [pruneStale, hl, Bool.false_eq_true, if_false, if_pos hst]
        refine ⟨?_, fun hs => ?_⟩
        · dsimp only
          exact hnotin
        · simp only [hs, if_pos]
          exact List.mem_append_left _ (List.mem_singleton_self key)
      · simp only [pruneStale, hl, Bool.false_eq_true, if_false,
          if_neg (not_lt.mpr hle)]
        exact List.mem_cons_self _ _
      · simp only [pruneStale, hl, if_true]
        exact List.mem_cons_self _ _
    · have hkey : k ≠ key := by
        intro hkk
        exact hk (List.mem_map.mpr ⟨(key, player), hmemtl, by rw [hkk]⟩)
      have hne : ((key, player) : String × Player) ≠ (k, pl) := by
        intro hcontra
        injection hcontra with h1 h2
        exact hkey h1.symm
      obtain ⟨ih1, ih2, ih3⟩ := ih hmemtl hnd'
      refine ⟨fun hl hst => ?_, fun hl hle => ?_, fun hl => ?_⟩
      · obtain ⟨ihn, ihs⟩ := ih1 hl hst
        constructor
        · simp only [pruneStale]
          split_ifs <;>
            first
              | exact fun hin => ihn hin
              | exact fun hin => (List.mem_cons.mp hin).elim hne ihn
        · intro hs
          simp only [pruneStale]
          split_ifs <;>
            first
              | exact List.mem_append_right _ (ihs hs)
              | exact ihs hs
      · simp only [pruneStale]
        split_ifs <;>
          first
            | exact List.mem_cons.mpr (Or.inr (ih2 hl hle))
            | exact ih2 hl hle
      · simp only [pruneStale]
        split_ifs <;>
          first
            | exact List.mem_cons.mpr (Or.inr (ih3 hl))
            | exact ih3 hl

/-- Witness for C7: a three-player map (one local, one stale remote, one
fresh remote) pruned at time 100 with timeout 10. -/
theorem pruneStale_removes_stale_witness :
    (("stale",
        ({ key := "stale", x := 0, y := 0, color := "red", lastSeen := 0,
           isLocal := false } : Player)) ∈
        [("me",
           ({ key := "me", x := 0, y := 0, color := "blue", lastSeen := 0,
              isLocal := true } : Player)),
         ("stale",
           ({ key := "stale", x := 0, y := 0, color := "red", lastSeen := 0,
              isLocal := false } : Player)),
         ("fresh",
           ({ key := "fresh", x := 0, y := 0, color := "green",
              lastSeen := 95, isLocal := false } : Player))] ∧
      ([("me",
          ({ key := "me", x := 0, y := 0, color := "blue", lastSeen := 0,
             isLocal := true } : Player)),
        ("stale",
          ({ key := "stale", x := 0, y := 0, color := "red", lastSeen := 0,
             isLocal := false } : Player)),
        ("fresh",
          ({ key := "fresh", x := 0, y := 0, color := "green", lastSeen := 95,
             isLocal := false } : Player))].map Prod.fst).Nodup) ∧
    ((({ key := "stale", x := 0, y := 0, color := "red", lastSeen := 0,
          isLocal := false } : Player).isLocal = false →
        (10 : ℚ) < 100 -
            ({ key := "stale", x := 0, y := 0, color := "red", lastSeen := 0,
               isLocal := false } : Player).lastSeen →
        ("stale",
            ({ key := "stale", x := 0, y := 0, color := "red", lastSeen := 0,
               isLocal := false } : Player)) ∉
            (pruneStale
              [("me",
                 ({ key := "me", x := 0, y := 0, color := "blue",
                    lastSeen := 0, isLocal := true } : Player)),
               ("stale",
                 ({ key := "stale", x := 0, y := 0, color := "red",
                    lastSeen := 0, isLocal := false } : Player)),
               ("fresh",
                 ({ key := "fresh", x := 0, y := 0, color := "green",
                    lastSeen := 95, isLocal := false } : Player))]
              ["stale", "fresh"] 100 10).1 ∧
          ("stale" ∈ (["stale", "fresh"] : List String) →
            "stale" ∈
              (pruneStale
                [("me",
                   ({ key := "me", x := 0, y := 0, color := "blue",
                      lastSeen := 0, isLocal := true } : Player)),
                 ("stale",
                   ({ key := "stale", x := 0, y := 0, color := "red",
                      lastSeen := 0, isLocal := false } : Player)),
                 ("fresh",
                   ({ key := "fresh", x := 0, y := 0, color := "green",
                      lastSeen := 95, isLocal := false } : Player))]
                ["stale", "fresh"] 100 10).2)) ∧
      (({ key := "stale", x := 0, y := 0, color := "red", lastSeen := 0,
           isLocal := false } : Player).isLocal = false →
        (100 : ℚ) -
            ({ key := "stale", x := 0, y := 0, color := "red", lastSeen := 0,
               isLocal := false } : Player).lastSeen ≤ 10 →
        ("stale",
            ({ key := "stale", x := 0, y := 0, color := "red", lastSeen := 0,
               isLocal := false } : Player)) ∈
          (pruneStale
            [("me",
               ({ key := "me", x := 0, y := 0, color := "blue", lastSeen := 0,
                  isLocal := true } : Player)),
             ("stale",
               ({ key := "stale", x := 0, y := 0, color := "red",
                  lastSeen := 0, isLocal := false } : Player)),
             ("fresh",
               ({ key := "fresh", x := 0, y := 0, color := "green",
                  lastSeen := 95, isLocal := false } : Player))]
            ["stale", "fresh"] 100 10).1) ∧
      (({ key := "stale", x := 0, y := 0, color := "red", lastSeen := 0,
           isLocal := false } : Player).isLocal = true →
        ("stale",
            ({ key := "stale", x := 0, y := 0, color := "red", lastSeen := 0,
               isLocal := false } : Player)) ∈
          (pruneStale
            [("me",
               ({ key := "me", x := 0, y := 0, color := "blue", lastSeen := 0,
                  isLocal := true } : Player)),
             ("stale",
               ({ key := "stale", x := 0, y := 0, color := "red",
                  lastSeen := 0, isLocal := false } : Player)),
             ("fresh",
               ({ key := "fresh", x := 0, y := 0, color := "green",
                  lastSeen := 95, isLocal := false } : Player))]
            ["stale", "fresh"] 100 10).1)) :=
  ⟨⟨by decide, by decide⟩,
   pruneStale_removes_stale _ ["stale", "fresh"] 100 10 "stale" _ (by decide)
     (by decide)⟩

/-- Looking up the replaced key yields the new state when the key exists. -/
theorem lookupRemote_replace_self (path : String) (r : RemoteState)
    (l : List (String × RemoteState)) :
    lookupRemote path (replaceRemote path r l) =
      (lookupRemote path l).map fun _ => r := by
  induction l with
  | nil => rfl
  | cons hd tl ih =>
    rcases hd with ⟨k, v⟩
    by_cases hkp : k = path
    · simp [replaceRemote, lookupRemote, hkp]
    · simp [replaceRemote, lookupRemote, hkp, ih]

/-- Replacing one key leaves lookups of other keys unchanged. -/
theorem lookupRemote_replace_other (path q : String) (r : RemoteState)
    (l : List (String × RemoteState)) (h : q ≠ path) :
    lookupRemote path (replaceRemote q r l) = lookupRemote path l := by
  induction l with
  | nil => rfl
  | cons hd tl ih =>
    rcases hd with ⟨k, v⟩
    by_cases hkq : k = q
    · subst hkq
      simp [replaceRemote, lookupRemote, h]
    · by_cases hkp : k = path
      · simp [replaceRemote, lookupRemote, hkq, hkp, Ne.symm h]
      · simp [replaceRemote, lookupRemote, hkq, hkp, ih]

/-- Setting the volume of a known path stores exactly that value. -/
theorem getVolume_setVolume_self (p : AudioPlayback) (path : String) (v : ℚ)
    (h : (lookupRemote path p.remotes).isSome = true) :
    (p.setVolume path v).getVolume path = some v := by
  rcases hl : lookupRemote path p.remotes with - | r
  · rw [hl] at h
    simp at h
  · simp [AudioPlayback.setVolume, AudioPlayback.getVolume, hl,
      lookupRemote_replace_self]

/-- Setting the volume of one path does not disturb another path's gain. -/
theorem getVolume_setVolume_other (p : AudioPlayback) (q path : String)
    (v : ℚ) (h : q ≠ path) :
    (p.setVolume q v).getVolume path = p.getVolume path := by
  rcases hl : lookupRemote q p.remotes with - | r
  · simp [AudioPlayback.setVolume, hl]
  · simp [AudioPlayback.setVolume, AudioPlayback.getVolume, hl,
      lookupRemote_replace_other path q _ _ h]

/-- `setVolume` never creates or deletes a remote entry. -/
theorem getVolume_isSome_setVolume (p : AudioPlayback) (q path : String)
    (v : ℚ) :
    ((p.setVolume q v).getVolume path).isSome =
      (p.getVolume path).isSome := by
  by_cases h : q = path
  · subst h
    rcases hl : lookupRemote q p.remotes with - | r
    · simp [AudioPlayback.setVolume, hl]
    · simp [AudioPlayback.getVolume, AudioPlayback.setVolume, hl,
        lookupRemote_replace_self]
  · rw [getVolume_setVolume_other p q path v h]

/-- A mix pass over players none of which carry the observed path leaves
that path's gain unchanged. -/
theorem updateAudioMix_not_mem (localPlayer : Player)
    (players : List (String × Player)) (pb : AudioPlayback) (path : String)
    (h : ∀ e ∈ players, e.1 ≠ path) :
    (updateAudioMix localPlayer players pb).getVolume path =
      pb.getVolume path := by
  induction players generalizing pb with
  | nil => rfl
  | cons hd tl ih =>
    rcases hd with ⟨q, pl⟩
    have hq : q ≠ path := h (q, pl) (List.mem_cons_self _ _)
    have htl : ∀ e ∈ tl, e.1 ≠ path := fun e he =>
      h e (List.mem_cons_of_mem _ he)
    have hcons : updateAudioMix localPlayer ((q, pl) :: tl) pb =
        updateAudioMix localPlayer tl (mixStep localPlayer pb (q, pl)) := rfl
    rw [hcons, ih _ htl]
    by_cases hl : pl.isLocal
    · simp [mixStep, hl]
    · simp only [mixStep, hl, if_false, Bool.false_eq_true]
      exact getVolume_setVolume_other pb q path _ hq

/-- The audibility test succeeds exactly when the two zone-id sets share an
element. -/
theorem intersects_iff_exists (a b : List String) :
    intersects a b = true ↔ ∃ v, v ∈ a ∧ v ∈ b := by
  unfold intersects
  rcases a with - | ⟨x, xs⟩
  · simp
  · rcases b with - | ⟨y, ys⟩
    · simp
    · simp only [List.isEmpty_cons, Bool.or_self, Bool.false_eq_true, if_false,
        List.any_eq_true, List.contains, List.elem_iff]

/-- A mix pass sets the gain of a non-local player known to the playback
engine according to its audibility with the local player. -/
theorem updateAudioMix_volume (localPlayer : Player)
    (players : List (String × Player)) (pb : AudioPlayback) (path : String)
    (player : Player) (hmem : (path, player) ∈ players)
    (hnl : player.isLocal = false) (hnd : (players.map Prod.fst).Nodup)
    (hin : (pb.getVolume path).isSome = true) :
    (updateAudioMix localPlayer players pb).getVolume path =
      some
        (if intersects (localPlayer.zones.getD []) (player.zones.getD [])
          then 1 else 0) := by
  induction players generalizing pb with
  | nil => simp at hmem
  | cons hd tl ih =>
    rcases hd with ⟨k, pl⟩
    simp only [List.map_cons, List.nodup_cons] at hnd
    obtain ⟨hk, hnd'⟩ := hnd
    have hcons : updateAudioMix localPlayer ((k, pl) :: tl) pb =
        updateAudioMix localPlayer tl (mixStep localPlayer pb (k, pl)) := rfl
    rcases List.mem_cons.mp hmem with heq | hmemtl
    · injection heq with h1 h2
      subst h1
      subst h2
      have htl : ∀ e ∈ tl, e.1 ≠ path := by
        intro e he hcontra
        exact hk (hcontra ▸ List.mem_map.mpr ⟨e, he, rfl⟩)
      rw [hcons, updateAudioMix_not_mem _ _ _ _ htl]
      simp only [mixStep, hnl, Bool.false_eq_true, if_false]
      apply getVolume_setVolume_self
      simpa [AudioPlayback.getVolume] using hin
    · rw [hcons]
      apply ih (mixStep localPlayer pb (k, pl)) hmemtl hnd'
      by_cases hl : pl.isLocal
      · simpa [mixStep, hl] using hin
      · simp only [mixStep, hl, Bool.false_eq_true, if_false]
        rw [getVolume_isSome_setVolume]
        exact hin

/-- C8.  The audibility test `intersects` is true exactly when the two zone
sets share a zone id (two empty sets are not audible), and a mix pass sets
a known remote peer's gain to 1 exactly when it is audible with the local
player and to 0 otherwise. -/
theorem audible_iff_zones_intersect (a b : List String)
    (localPlayer : Player) (players : List (String × Player))
    (pb : AudioPlayback) (path : String) (player : Player)
    (hmem : (path, player) ∈ players) (hnl : player.isLocal = false)
    (hnd : (players.map Prod.fst).Nodup)
    (hin : (pb.getVolume path).isSome = true) :
    (intersects a b = true ↔ ∃ v, v ∈ a ∧ v ∈ b) ∧
    intersects [] [] = false ∧
    (updateAudioMix localPlayer players pb).getVolume path =
      some
        (if intersects (localPlayer.zones.getD []) (player.zones.getD [])
          then 1 else 0) :=
  ⟨intersects_iff_exists a b, rfl,
   updateAudioMix_volume localPlayer players pb path player hmem hnl hnd hin⟩

/-- Witness for C8: a local player in the forge, a remote peer also in the
forge and known to the playback engine. -/
theorem audible_iff_zones_intersect_witness :
    ((("p1",
        ({ key := "p1", x := 0, y := 0, color := "red", lastSeen := 0,
           isLocal := false, zones := some ["forge"] } : Player)) ∈
        [("p1",
           ({ key := "p1", x := 0, y := 0, color := "red", lastSeen := 0,
              isLocal := false, zones := some ["forge"] } : Player))]) ∧
      ({ key := "p1", x := 0, y := 0, color := "red", lastSeen := 0,
         isLocal := false, zones := some ["forge"] } : Player).isLocal =
        false ∧
      (([("p1",
           ({ key := "p1", x := 0, y := 0, color := "red", lastSeen := 0,
              isLocal := false, zones := some ["forge"] } : Player))].map
          Prod.fst).Nodup) ∧
      ((({ hasContext := true,
           remotes :=
             [("p1",
                ({ gainValue := 1, nextTime := 0,
                   stats :=
                     { framesDecoded := 0, bufferedAhead := 0, underruns := 0,
                       targetLead := 0 },
                   targetLead := 0, lastUnderrunAt := none,
                   lastAdjustmentAt := 0 } : RemoteState))] } :
            AudioPlayback).getVolume "p1").isSome = true)) ∧
    ((intersects ["forge"] ["forge", "library"] = true ↔
        ∃ v, v ∈ (["forge"] : List String) ∧
          v ∈ (["forge", "library"] : List String)) ∧
      intersects [] [] = false ∧
      (updateAudioMix
            ({ key := "local", x := 0, y := 0, color := "blue", lastSeen := 0,
               isLocal := true, zones := some ["forge"] } : Player)
            [("p1",
               ({ key := "p1", x := 0, y := 0, color := "red", lastSeen := 0,
                  isLocal := false, zones := some ["forge"] } : Player))]
            ({ hasContext := true,
               remotes :=
                 [("p1",
                    ({ gainValue := 1, nextTime := 0,
                       stats :=
                         { framesDecoded := 0, bufferedAhead := 0,
                           underruns := 0, targetLead := 0 },
                       targetLead := 0, lastUnderrunAt := none,
                       lastAdjustmentAt := 0 } : RemoteState))] } :
                AudioPlayback)).getVolume "p1" =
        some
          (if intersects
              (({ key := "local", x := 0, y := 0, color := "blue",
                  lastSeen := 0, isLocal := true,
                  zones := some ["forge"] } : Player).zones.getD [])
              (({ key := "p1", x := 0, y := 0, color := "red", lastSeen := 0,
                  isLocal := false,
                  zones := some ["forge"] } : Player).zones.getD [])
            then 1 else 0)) :=
  ⟨⟨by decide, rfl, by decide, rfl⟩,
   audible_iff_zones_intersect ["forge"] ["forge", "library"] _ _ _ "p1" _
     (by decide) rfl (by decide) rfl⟩

/-- `finish` does not touch the channel liveness flags. -/
theorem activeFlag_finish (ch : Chan) (s : SubState) :
    activeFlag ch (finish s) = activeFlag ch s := by
  unfold finish
  split <;> cases ch <;> rfl

/-- `maybeFinish` does not touch the channel liveness flags. -/
theorem activeFlag_maybeFinish (ch : Chan) (s : SubState) :
    activeFlag ch (maybeFinish s) = activeFlag ch s := by
  unfold maybeFinish
  split
  · exact activeFlag_finish ch s
  · rfl

/-- `setInactive` clears exactly the addressed flag. -/
theorem activeFlag_setInactive (ch ch' : Chan) (s : SubState) :
    activeFlag ch (setInactive ch' s) =
      (activeFlag ch s && !(decide (ch = ch'))) := by
  cases ch <;> cases ch' <;> simp [activeFlag, setInactive]

/-- `setInactive` keeps the `closed` flag. -/
theorem closed_setInactive (ch : Chan) (s : SubState) :
    (setInactive ch s).closed = s.closed := by
  cases ch <;> rfl

/-- `setInactive` keeps the teardown-run counter. -/
theorem finishRuns_setInactive (ch : Chan) (s : SubState) :
    (setInactive ch s).finishRuns = s.finishRuns := by
  cases ch <;> rfl

/-- `finish` keeps the fan-in condition. -/
theorem allInactive_finish (s : SubState) :
    allInactive (finish s) = allInactive s := by
  unfold finish
  split <;> rfl

/-- Clearing a flag preserves the fan-in condition once reached. -/
theorem allInactive_setInactive_mono (s : SubState) (ch : Chan)
    (h : allInactive s = true) : allInactive (setInactive ch s) = true := by
  cases ch <;> simp_all [allInactive, setInactive]

/-- The fan-in condition says every channel flag is down. -/
theorem allInactive_iff (s : SubState) :
    allInactive s = true ↔ ∀ ch : Chan, activeFlag ch s = false := by
  constructor
  · intro h ch
    simp only [allInactive, Bool.and_eq_true, Bool.not_eq_true'] at h
    obtain ⟨⟨⟨⟨h1, h2⟩, h3⟩, h4⟩, h5⟩ := h
    cases ch <;> assumption
  · intro h
    have h1 := h .position
    have h2 := h .profile
    have h3 := h .audio
    have h4 := h .speaking
    have h5 := h .zones
    simp only [activeFlag] at h1 h2 h3 h4 h5
    simp [allInactive, h1, h2, h3, h4, h5]

/-- A channel flag after an event sequence: still up iff it was up and its
termination event did not occur (finish calls never touch flags). -/
theorem activeFlag_runEvents (tr : List SubEvent) :
    ∀ (s : SubState) (ch : Chan),
      activeFlag ch (runEvents s tr) =
        (activeFlag ch s && !(decide (SubEvent.chanInactive ch ∈ tr))) := by
  induction tr with
  | nil => intro s ch; simp [runEvents]
  | cons e tr ih =>
    intro s ch
    have hstep : activeFlag ch (stepEvent s e) =
        (activeFlag ch s && !(decide (SubEvent.chanInactive ch = e))) := by
      cases e with
      | finishCall => simp [stepEvent, activeFlag_finish]
      | chanInactive ch' =>
        show activeFlag ch (maybeFinish (setInactive ch' s)) = _
        rw [activeFlag_maybeFinish, activeFlag_setInactive]
        simp [SubEvent.chanInactive.injEq]
    rw [show runEvents s (e :: tr) = runEvents (stepEvent s e) tr from rfl,
      ih (stepEvent s e) ch, hstep]
    by_cases hm : SubEvent.chanInactive ch = e <;>
      by_cases hm2 : SubEvent.chanInactive ch ∈ tr <;>
        simp [List.mem_cons, hm, hm2]

/-- Along channel-termination events, `closed` tracks the fan-in condition
exactly. -/
theorem closed_eq_allInactive_run (tr : List SubEvent) :
    ∀ s : SubState, (∀ e ∈ tr, e ≠ SubEvent.finishCall) →
      s.closed = allInactive s →
      (runEvents s tr).closed = allInactive (runEvents s tr) := by
  induction tr with
  | nil => intro s _ hs; exact hs
  | cons e tr ih =>
    intro s h hs
    have he : e ≠ SubEvent.finishCall := h e (List.mem_cons_self _ _)
    have h' : ∀ e' ∈ tr, e' ≠ SubEvent.finishCall := fun e' he' =>
      h e' (List.mem_cons_of_mem _ he')
    show (runEvents (stepEvent s e) tr).closed =
      allInactive (runEvents (stepEvent s e) tr)
    apply ih (stepEvent s e) h'
    cases e with
    | finishCall => exact absurd rfl he
    | chanInactive ch =>
      show (maybeFinish (setInactive ch s)).closed =
        allInactive (maybeFinish (setInactive ch s))
      unfold maybeFinish
      by_cases hA : allInactive (setInactive ch s) = true
      · rw [if_pos hA, allInactive_finish, hA]
        unfold finish
        split <;> simp_all
      · rw [if_neg hA]
        have hAs : allInactive s = false := by
          cases hAs2 : allInactive s
          · rfl
          · exact absurd (allInactive_setInactive_mono s ch hAs2) hA
        rw [closed_setInactive, hs, hAs]
        cases hb : allInactive (setInactive ch s)
        · rfl
        · exact absurd hb hA

/-- The teardown body runs at most once along any event sequence. -/
theorem finishRuns_le_one_run (tr : List SubEvent) :
    ∀ s : SubState, (s.closed = false → s.finishRuns = 0) →
      s.finishRuns ≤ 1 →
      ((runEvents s tr).closed = false → (runEvents s tr).finishRuns = 0) ∧
        (runEvents s tr).finishRuns ≤ 1 := by
  induction tr with
  | nil => intro s h0 h1; exact ⟨h0, h1⟩
  | cons e tr ih =>
    intro s h0 h1
    have hfin : ∀ t : SubState, (t.closed = false → t.finishRuns = 0) →
        t.finishRuns ≤ 1 →
        ((finish t).closed = false → (finish t).finishRuns = 0) ∧
          (finish t).finishRuns ≤ 1 := by
      intro t ht0 ht1
      unfold finish
      split
      · exact ⟨ht0, ht1⟩
      · refine ⟨fun hcontra => by simp_all, ?_⟩
        have : t.finishRuns = 0 := ht0 (by simp_all)
        simp [this]
    have hstep : ((stepEvent s e).closed = false →
          (stepEvent s e).finishRuns = 0) ∧ (stepEvent s e).finishRuns ≤ 1 := by
      cases e with
      | finishCall => exact hfin s h0 h1
      | chanInactive ch =>
        show ((maybeFinish (setInactive ch s)).closed = false →
            (maybeFinish (setInactive ch s)).finishRuns = 0) ∧
          (maybeFinish (setInactive ch s)).finishRuns ≤ 1
        unfold maybeFinish
        split
        · exact hfin (setInactive ch s)
            (by rw [closed_setInactive, finishRuns_setInactive]; exact h0)
            (by rw [finishRuns_setInactive]; exact h1)
        · rw [closed_setInactive, finishRuns_setInactive]
          exact ⟨h0, h1⟩
    exact ih (stepEvent s e) hstep.1 hstep.2

/-- A second direct `finish` invocation is a no-op. -/
theorem step_finish_idem (s : SubState) :
    stepEvent (stepEvent s .finishCall) .finishCall =
      stepEvent s .finishCall := by
  show finish (finish s) = finish s
  by_cases h : s.closed
  · simp [finish, h]
  · simp [finish, h]

/-- C5.  Along the subscription's own channel-termination events the peer
teardown fires exactly when the last actually-opened channel reports
inactive — `closed` holds after a trace iff every opened channel's
termination event is in it, so the teardown never runs while an opened
channel is live; moreover, across any event sequence (including direct
`finish` invocations from directory withdrawal or staleness pruning) the
teardown body executes at most once, and invoking `finish` again
immediately is a no-op. -/
theorem subscription_fanin_teardown (c : SubSetup) (tr tr' : List SubEvent)
    (h : ∀ e ∈ tr, e ≠ SubEvent.finishCall) :
    ((runEvents (initSub c) tr).closed = true ↔
      ∀ ch : Chan, openedIn c ch = true → SubEvent.chanInactive ch ∈ tr) ∧
    (runEvents (initSub c) tr').finishRuns ≤ 1 ∧
    (∀ s : SubState, stepEvent (stepEvent s .finishCall) .finishCall =
      stepEvent s .finishCall) := by
  refine ⟨?_, ?_, step_finish_idem⟩
  · rw [closed_eq_allInactive_run tr (initSub c) h rfl, allInactive_iff]
    refine forall_congr' fun ch => ?_
    rw [activeFlag_runEvents tr (initSub c) ch]
    have hinit : activeFlag ch (initSub c) = openedIn c ch := by
      cases ch <;> rfl
    rw [hinit]
    have hbool : ∀ a d : Bool, ((a && !d) = false ↔ (a = true → d = true)) := by
      decide
    rw [hbool]
    simp
  · exact (finishRuns_le_one_run tr' (initSub c) (fun _ => rfl)
      (Nat.zero_le 1)).2

/-- Witness for C5: profile and audio opened besides position; the fan-in
trace closes the three opened channels; the second trace mixes direct
finish calls with a channel closure. -/
theorem subscription_fanin_teardown_witness :
    (∀ e ∈ [SubEvent.chanInactive .position, SubEvent.chanInactive .profile,
        SubEvent.chanInactive .audio], e ≠ SubEvent.finishCall) ∧
    (((runEvents (initSub ⟨true, true, false, false⟩)
          [SubEvent.chanInactive .position, SubEvent.chanInactive .profile,
            SubEvent.chanInactive .audio]).closed = true ↔
        ∀ ch : Chan, openedIn ⟨true, true, false, false⟩ ch = true →
          SubEvent.chanInactive ch ∈
            [SubEvent.chanInactive .position, SubEvent.chanInactive .profile,
              SubEvent.chanInactive .audio]) ∧
      (runEvents (initSub ⟨true, true, false, false⟩)
          [SubEvent.finishCall, SubEvent.chanInactive .position,
            SubEvent.finishCall]).finishRuns ≤ 1 ∧
      (∀ s : SubState, stepEvent (stepEvent s .finishCall) .finishCall =
        stepEvent s .finishCall)) :=
  ⟨by decide,
   subscription_fanin_teardown ⟨true, true, false, false⟩
     [SubEvent.chanInactive .position, SubEvent.chanInactive .profile,
       SubEvent.chanInactive .audio]
     [SubEvent.finishCall, SubEvent.chanInactive .position,
       SubEvent.finishCall]
     (by decide)⟩

/-- After an underrun was just recorded, the shrink branch cannot fire in
the same call, so the enqueue body is underrun recovery plus scheduling. -/
theorem enqueueStep_underrun_eq (s : RemoteState) (now : ℚ)
    (pkt : DecodedPacket) (h1 : s.nextTime < now) :
    enqueueStep s now pkt = schedulePhase (underrunPhase s now) now pkt := by
  unfold enqueueStep
  apply shrinkPhase_of_not
  rintro ⟨-, -, hc, -, -⟩
  rw [show (schedulePhase (underrunPhase s now) now pkt).lastUnderrunAt =
      (underrunPhase s now).lastUnderrunAt from rfl,
    underrunPhase_of_lt s now h1] at hc
  simp only [stableSince_now] at hc
  exact Bool.false_ne_true hc

/-- The shrink branch keeps the buffered-ahead statistic. -/
theorem shrinkPhase_bufferedAhead (s : RemoteState) (now : ℚ) :
    (shrinkPhase s now).stats.bufferedAhead = s.stats.bufferedAhead := by
  simp only [shrinkPhase]
  split_ifs <;> rfl

/-- The shrink branch keeps the underrun counter. -/
theorem shrinkPhase_underruns (s : RemoteState) (now : ℚ) :
    (shrinkPhase s now).stats.underruns = s.stats.underruns := by
  simp only [shrinkPhase]
  split_ifs <;> rfl

/-- When its guard holds, the shrink branch lowers the target lead to
`max MIN_LEAD_SECONDS (targetLead - LEAD_STEP_DOWN)`. -/
theorem shrinkPhase_pos_targetLead (s : RemoteState) (now : ℚ)
    (h : MIN_LEAD_SECONDS < s.targetLead ∧ 0 < s.stats.underruns ∧
      stableSince s.lastUnderrunAt now = true ∧
      SHRINK_COOLDOWN_SECONDS < now - s.lastAdjustmentAt ∧
      s.targetLead + 0.05 < s.stats.bufferedAhead) :
    (shrinkPhase s now).targetLead =
      max MIN_LEAD_SECONDS (s.targetLead - LEAD_STEP_DOWN) := by
  simp only [shrinkPhase]
  rw [if_pos h]
  split_ifs <;> rfl

/-- When its guard holds, the shrink branch never leaves the cursor below
`now` plus the new target lead. -/
theorem shrinkPhase_pos_cursor (s : RemoteState) (now : ℚ)
    (h : MIN_LEAD_SECONDS < s.targetLead ∧ 0 < s.stats.underruns ∧
      stableSince s.lastUnderrunAt now = true ∧
      SHRINK_COOLDOWN_SECONDS < now - s.lastAdjustmentAt ∧
      s.targetLead + 0.05 < s.stats.bufferedAhead) :
    now + (shrinkPhase s now).targetLead ≤ (shrinkPhase s now).nextTime := by
  simp only [shrinkPhase]
  rw [if_pos h]
  split_ifs with h2
  · exact le_refl _
  · exact not_lt.mp h2

/-- The reachable target leads all lie on the grid
`MIN_LEAD_SECONDS + k * LEAD_STEP_DOWN` with `k ≤ 30`: stepping up by
`LEAD_STEP_UP = 4 * LEAD_STEP_DOWN` (clamped at `MAX_LEAD_SECONDS`, which
is grid point 30) and down by `LEAD_STEP_DOWN` (clamped at grid point 0)
stays on the grid. -/
theorem reachable_leadGrid (s : RemoteState) (hs : Reachable s) :
    ∃ k : ℕ, k ≤ 30 ∧
      s.targetLead = MIN_LEAD_SECONDS + k * LEAD_STEP_DOWN := by
  induction hs with
  | init now => exact ⟨0, by omega, by simp [createRemote]⟩
  | step s now pkt hs ih =>
    obtain ⟨k, hk, ht⟩ := ih
    by_cases hu : s.nextTime < now
    · have hlead : (enqueueStep s now pkt).targetLead =
          min MAX_LEAD_SECONDS (s.targetLead + LEAD_STEP_UP) := by
        rw [enqueueStep_underrun_eq s now pkt hu,
          underrunPhase_of_lt s now hu]
        rfl
      rw [hlead]
      by_cases hc : k + 4 ≤ 30
      · refine ⟨k + 4, hc, ?_⟩
        rw [min_eq_right, ht]
        · push_cast
          norm_num [MIN_LEAD_SECONDS, LEAD_STEP_DOWN, LEAD_STEP_UP]
          ring
        · have hkq : (k : ℚ) ≤ 26 := by exact_mod_cast (by omega : k ≤ 26)
          rw [ht]
          norm_num [MIN_LEAD_SECONDS, LEAD_STEP_DOWN, LEAD_STEP_UP,
            MAX_LEAD_SECONDS]
          linarith
      · refine ⟨30, le_refl 30, ?_⟩
        rw [min_eq_left]
        · norm_num [MIN_LEAD_SECONDS, LEAD_STEP_DOWN, MAX_LEAD_SECONDS]
        · have hkq : (27 : ℚ) ≤ (k : ℚ) := by
            exact_mod_cast (by omega : 27 ≤ k)
          rw [ht]
          norm_num [MIN_LEAD_SECONDS, LEAD_STEP_DOWN, LEAD_STEP_UP,
            MAX_LEAD_SECONDS]
          linarith
    · have he : enqueueStep s now pkt =
          shrinkPhase (schedulePhase s now pkt) now := by
        unfold enqueueStep
        rw [underrunPhase_of_ge s now hu]
      rw [he]
      by_cases hg : MIN_LEAD_SECONDS < (schedulePhase s now pkt).targetLead ∧
          0 < (schedulePhase s now pkt).stats.underruns ∧
          stableSince (schedulePhase s now pkt).lastUnderrunAt now = true ∧
          SHRINK_COOLDOWN_SECONDS <
            now - (schedulePhase s now pkt).lastAdjustmentAt ∧
          (schedulePhase s now pkt).targetLead + 0.05 <
            (schedulePhase s now pkt).stats.bufferedAhead
      · rw [shrinkPhase_pos_targetLead _ _ hg]
        have hmt : (schedulePhase s now pkt).targetLead = s.targetLead := rfl
        rw [hmt]
        have hgt : MIN_LEAD_SECONDS < s.targetLead := hmt ▸ hg.1
        have hk1 : 1 ≤ k := by
          by_contra hc
          have hzero : k = 0 := by omega
          subst hzero
          rw [ht] at hgt
          norm_num at hgt
        refine ⟨k - 1, by omega, ?_⟩
        have hcast : ((k - 1 : ℕ) : ℚ) = (k : ℚ) - 1 := by
          push_cast [hk1]
          ring
        rw [max_eq_right, ht, hcast]
        · norm_num [MIN_LEAD_SECONDS, LEAD_STEP_DOWN]
          ring
        · have hkq : (1 : ℚ) ≤ (k : ℚ) := by exact_mod_cast hk1
          rw [ht]
          norm_num [MIN_LEAD_SECONDS, LEAD_STEP_DOWN]
          linarith
      · rw [shrinkPhase_of_not _ _ hg]
        exact ⟨k, hk, ht⟩

/-- Case split on the shrink branch: either the target lead is untouched,
or the guard held (so the lead was above the minimum) and it was lowered to
`max MIN_LEAD_SECONDS (targetLead - LEAD_STEP_DOWN)`. -/
theorem shrinkPhase_targetLead_cases (s : RemoteState) (now : ℚ) :
    (shrinkPhase s now).targetLead = s.targetLead ∨
      (MIN_LEAD_SECONDS < s.targetLead ∧
        (shrinkPhase s now).targetLead =
          max MIN_LEAD_SECONDS (s.targetLead - LEAD_STEP_DOWN)) := by
  simp only [shrinkPhase]
  split_ifs with hg h2
  · exact Or.inr ⟨hg.1, rfl⟩
  · exact Or.inr ⟨hg.1, rfl⟩
  · exact Or.inl rfl

/-- C4.  In every reachable jitter state the target lead lies in
`[MIN_LEAD_SECONDS, MAX_LEAD_SECONDS]` = [0.15 s, 0.75 s]; an enqueue call
increases it only when it records an underrun (counter +1), and decreases
it only when the stability window has elapsed since the last underrun, the
cooldown has elapsed since the last adjustment, and the buffered-ahead
duration exceeds the target lead by more than 0.05 s — then by exactly
`LEAD_STEP_DOWN` = 0.02 s, and the call never leaves the cursor below
`now` plus the new target lead. -/
theorem target_lead_invariant (s : RemoteState) (now : ℚ)
    (pkt : DecodedPacket) (hs : Reachable s) :
    (MIN_LEAD_SECONDS ≤ s.targetLead ∧ s.targetLead ≤ MAX_LEAD_SECONDS) ∧
    (s.targetLead < (enqueueStep s now pkt).targetLead →
      (enqueueStep s now pkt).stats.underruns = s.stats.underruns + 1) ∧
    ((enqueueStep s now pkt).targetLead < s.targetLead →
      stableSince s.lastUnderrunAt now = true ∧
      SHRINK_COOLDOWN_SECONDS < now - s.lastAdjustmentAt ∧
      s.targetLead + 0.05 < (enqueueStep s now pkt).stats.bufferedAhead ∧
      (enqueueStep s now pkt).targetLead = s.targetLead - LEAD_STEP_DOWN ∧
      now + (enqueueStep s now pkt).targetLead ≤
        (enqueueStep s now pkt).nextTime) := by
  obtain ⟨k, hk, ht⟩ := reachable_leadGrid s hs
  have hk0 : (0 : ℚ) ≤ (k : ℚ) := Nat.cast_nonneg k
  have hks : (k : ℚ) ≤ 30 := by exact_mod_cast hk
  have hlow : MIN_LEAD_SECONDS ≤ s.targetLead := by
    rw [ht]
    norm_num [MIN_LEAD_SECONDS, LEAD_STEP_DOWN]
  have hhigh : s.targetLead ≤ MAX_LEAD_SECONDS := by
    rw [ht]
    norm_num [MIN_LEAD_SECONDS, LEAD_STEP_DOWN, MAX_LEAD_SECONDS]
    linarith
  refine ⟨⟨hlow, hhigh⟩, ?_, ?_⟩ <;> by_cases hu : s.nextTime < now
  · intro _
    rw [enqueueStep_underrun_eq s now pkt hu, underrunPhase_of_lt s now hu]
    rfl
  · have he : enqueueStep s now pkt =
        shrinkPhase (schedulePhase s now pkt) now := by
      unfold enqueueStep
      rw [underrunPhase_of_ge s now hu]
    intro hgt
    exfalso
    rw [he] at hgt
    rcases shrinkPhase_targetLead_cases (schedulePhase s now pkt) now
      with hsame | ⟨-, hdown⟩
    · rw [hsame] at hgt
      exact lt_irrefl _ hgt
    · rw [hdown] at hgt
      have hmt : (schedulePhase s now pkt).targetLead = s.targetLead := rfl
      rw [hmt] at hgt
      have hdp : (0 : ℚ) < LEAD_STEP_DOWN := by norm_num [LEAD_STEP_DOWN]
      have hle : max MIN_LEAD_SECONDS (s.targetLead - LEAD_STEP_DOWN) ≤
          s.targetLead := max_le hlow (by linarith)
      exact absurd hgt (not_lt.mpr hle)
  · intro hlt
    exfalso
    have hlead : (enqueueStep s now pkt).targetLead =
        min MAX_LEAD_SECONDS (s.targetLead + LEAD_STEP_UP) := by
      rw [enqueueStep_underrun_eq s now pkt hu, underrunPhase_of_lt s now hu]
      rfl
    rw [hlead] at hlt
    have hup : (0 : ℚ) < LEAD_STEP_UP := by norm_num [LEAD_STEP_UP]
    have hge : s.targetLead ≤
        min MAX_LEAD_SECONDS (s.targetLead + LEAD_STEP_UP) :=
      le_min hhigh (by linarith)
    exact absurd hlt (not_lt.mpr hge)
  · intro hlt
    have he : enqueueStep s now pkt =
        shrinkPhase (schedulePhase s now pkt) now := by
      unfold enqueueStep
      rw [underrunPhase_of_ge s now hu]
    have hmt : (schedulePhase s now pkt).targetLead = s.targetLead := rfl
    by_cases hg : MIN_LEAD_SECONDS < (schedulePhase s now pkt).targetLead ∧
        0 < (schedulePhase s now pkt).stats.underruns ∧
        stableSince (schedulePhase s now pkt).lastUnderrunAt now = true ∧
        SHRINK_COOLDOWN_SECONDS <
          now - (schedulePhase s now pkt).lastAdjustmentAt ∧
        (schedulePhase s now pkt).targetLead + 0.05 <
          (schedulePhase s now pkt).stats.bufferedAhead
    · obtain ⟨hg1, hg2, hg3, hg4, hg5⟩ := hg
      have hgt : MIN_LEAD_SECONDS < s.targetLead := hmt ▸ hg1
      have hk1 : 1 ≤ k := by
        by_contra hc
        have hzero : k = 0 := by omega
        subst hzero
        rw [ht] at hgt
        norm_num at hgt
      have hkq : (1 : ℚ) ≤ (k : ℚ) := by exact_mod_cast hk1
      have hmax : max MIN_LEAD_SECONDS (s.targetLead - LEAD_STEP_DOWN) =
          s.targetLead - LEAD_STEP_DOWN := by
        apply max_eq_right
        rw [ht]
        norm_num [MIN_LEAD_SECONDS, LEAD_STEP_DOWN]
        linarith
      have hlead : (enqueueStep s now pkt).targetLead =
          s.targetLead - LEAD_STEP_DOWN := by
        rw [he, shrinkPhase_pos_targetLead _ _ ⟨hg1, hg2, hg3, hg4, hg5⟩, hmt,
          hmax]
      refine ⟨hg3, hg4, ?_, hlead, ?_⟩
      · rw [he, shrinkPhase_bufferedAhead]
        exact hmt ▸ hg5
      · rw [he]
        exact shrinkPhase_pos_cursor _ _ ⟨hg1, hg2, hg3, hg4, hg5⟩
    · exfalso
      rw [he, shrinkPhase_of_not _ _ hg, hmt] at hlt
      exact lt_irrefl _ hlt

/-- Witness for C4 at the fresh remote created at time 0, stepped at time 1
with a 480-frame packet. -/
theorem target_lead_invariant_witness :
    Reachable (createRemote 0) ∧
    ((MIN_LEAD_SECONDS ≤ (createRemote 0).targetLead ∧
        (createRemote 0).targetLead ≤ MAX_LEAD_SECONDS) ∧
      ((createRemote 0).targetLead <
          (enqueueStep (createRemote 0) 1 ⟨[[0]], 48000, 480⟩).targetLead →
        (enqueueStep (createRemote 0) 1 ⟨[[0]], 48000, 480⟩).stats.underruns =
          (createRemote 0).stats.underruns + 1) ∧
      ((enqueueStep (createRemote 0) 1 ⟨[[0]], 48000, 480⟩).targetLead <
          (createRemote 0).targetLead →
        stableSince (createRemote 0).lastUnderrunAt 1 = true ∧
        SHRINK_COOLDOWN_SECONDS < 1 - (createRemote 0).lastAdjustmentAt ∧
        (createRemote 0).targetLead + 0.05 <
          (enqueueStep (createRemote 0) 1
              ⟨[[0]], 48000, 480⟩).stats.bufferedAhead ∧
        (enqueueStep (createRemote 0) 1 ⟨[[0]], 48000, 480⟩).targetLead =
          (createRemote 0).targetLead - LEAD_STEP_DOWN ∧
        1 + (enqueueStep (createRemote 0) 1 ⟨[[0]], 48000, 480⟩).targetLead ≤
          (enqueueStep (createRemote 0) 1 ⟨[[0]], 48000, 480⟩).nextTime)) :=
  ⟨Reachable.init 0,
   target_lead_invariant (createRemote 0) 1 ⟨[[0]], 48000, 480⟩
     (Reachable.init 0)⟩
